import Mathlib

/-!  TTS chunking and fallback pipeline: shallow embedding

Verification of the text-to-speech core of the VisionVoice multimodal
application (`app/backend/utils/model_manager.py`): sentence splitting,
greedy chunk planning, the parallel synthesis executor, the fallback
cascade, and voice resolution.

Text is modelled as `List Char`; audio samples as `Int` (only
concatenation and the zero sample matter to the pipeline).  The external
Kokoro synthesis engine is modelled as a function from text to
`Except Unit (List (List Int))`: `.error` models a raised exception,
`.ok segs` models the generator yielding the audio arrays `segs`.  The
voice and speed parameters are passed through unchanged to every engine
call, so one `Engine` value models the engine at one fixed (voice, speed)
pair.  Engine calls are modelled as atomic: a call either raises or
returns all of its segments.  The thread pool's nondeterministic
`as_completed` iteration order is modelled by an explicit
completion-order parameter listing chunk indices.
-/

namespace VisionVoice

/-- Sentence-terminal punctuation, the character class of the source
regexes `([.!?]+)` (line 247) and `(?<=[.!?])\s+` (line 355). -/
def terminalPunct (c : Char) : Bool := c = '.' || c = '!' || c = '?'

/-- ASCII whitespace: the characters stripped by Python `str.strip()` and
matched by the regex class `\s` (restricted to ASCII input). -/
def pySpace (c : Char) : Bool :=
  c = ' ' || c = '\t' || c = '\n' || c = '\r' || c = '\x0b' || c = '\x0c'

/-- Python `str.strip()`: drop leading and trailing whitespace. -/
def pyStrip (s : List Char) : List Char :=
  ((s.dropWhile pySpace).reverse.dropWhile pySpace).reverse

/-- Whether a character list starts with terminal punctuation. -/
def headTerminal : List Char → Bool
  | [] => false
  | c :: _ => terminalPunct c

/-- Lines 244-254 of `model_manager.py`: the loop over
`re.split` with capture group `([.!?]+)` accumulates parts and closes a
sentence (stripped) whenever the part just added ends in terminal
punctuation; a non-empty remainder is appended stripped at the end.
Because the regex captures maximal punctuation runs, this is equivalent
to the character scan below: a sentence closes exactly after a
terminal-punctuation character whose successor is absent or is not
terminal punctuation. -/
def splitSentencesAux : List Char → List Char → List (List Char)
  | [], current => if current = [] then [] else [pyStrip current]
  | c :: rest, current =>
    if terminalPunct c && !headTerminal rest then
      pyStrip (current ++ [c]) :: splitSentencesAux rest []
    else
      splitSentencesAux rest (current ++ [c])

/-- Sentence splitting used by the chunk planner (lines 244-254). -/
def splitSentences (t : List Char) : List (List Char) := splitSentencesAux t []

/-- Lines 256-274: greedily pack consecutive sentences into chunks.  A
sentence is appended (with a joining space) while the current chunk's
length plus the sentence's length is at most 150; otherwise the current
chunk is closed and the sentence starts a new chunk.  Empty current
chunks are never closed (`if current_chunk:` guards). -/
def groupChunksAux : List (List Char) → List Char → List (List Char)
  | [], current => if current = [] then [] else [current]
  | s :: rest, current =>
    if current.length + s.length > 150 then
      if current = [] then groupChunksAux rest s
      else current :: groupChunksAux rest s
    else
      if current = [] then groupChunksAux rest s
      else groupChunksAux rest (current ++ ' ' :: s)

/-- Chunk packing starting from an empty current chunk (line 258). -/
def groupChunks (ss : List (List Char)) : List (List Char) := groupChunksAux ss []

/-- The chunk planner: sentence split followed by greedy packing
(lines 244-274). -/
def planChunks (t : List Char) : List (List Char) := groupChunks (splitSentences t)

/-- Line 277: the plan is rejected ("not chunkable", so the sequential
fallback is used) when some chunk is shorter than 5 characters or there
is exactly one chunk. -/
def notChunkable (chunks : List (List Char)) : Bool :=
  chunks.any (fun c => c.length < 5) || chunks.length == 1

example : splitSentences "Hello. World.".data = ["Hello.".data, "World.".data] := by decide

example : planChunks "Hello. World.".data = ["Hello. World.".data] := by decide

example : splitSentences ("Hello. ".data) = ["Hello.".data, []] := by decide

/-- Audio sample.  The pipeline only concatenates samples and emits the
zero sample for silence, so the float element type is abstracted to
`Int`. -/
abbrev Sample := Int

/-- The synthesis-engine collaborator at one fixed (voice, speed):
`.error` models a raised exception, `.ok segs` models the Kokoro
generator yielding the audio arrays `segs` (possibly none, possibly
empty ones). -/
abbrev Engine := List Char → Except Unit (List (List Sample))

/-- Lines 283-294 (`process_chunk`): synthesize one chunk, concatenating
the yielded arrays; any exception, or an empty yield, gives an empty
result rather than aborting the other chunks. -/
def processChunk (engine : Engine) (chunk : List Char) : List Sample :=
  match engine chunk with
  | .ok parts => parts.flatten
  | .error _ => []

/-- Lines 297-309: the executor collects chunk results in the order the
futures complete (`concurrent.futures.as_completed`), keeping only
non-empty results.  `order` lists chunk indices in completion order. -/
def collectParallel (engine : Engine) (chunks : List (List Char)) (order : List Nat) :
    List (List Sample) :=
  ((order.filterMap (fun i => chunks.get? i)).map (processChunk engine)).filter
    (fun a => !a.isEmpty)

/-- The four tiers of the fallback cascade (spec section 4.3). -/
inductive Tier
  | wholeText
  | bySentence
  | apology
  | silence
deriving DecidableEq

/-- Whether the last character of a segment is terminal punctuation. -/
def endsTerminal (s : List Char) : Bool :=
  match s.getLast? with
  | some c => terminalPunct c
  | none => false

/-- Line 355: `re.split` on `(?<=[.!?])\s+` — cut the text at every
maximal whitespace run immediately preceded by terminal punctuation,
dropping the whitespace.  The Boolean state records whether the scan is
inside such a run (the greedy `\s+` match); a run reaching the end of the
text leaves a trailing empty segment, exactly as `re.split` does. -/
def splitAfterPunctAux : List Char → List Char → Bool → List (List Char)
  | [], current, skipping => if skipping then [[]] else [current]
  | c :: rest, current, skipping =>
    if skipping then
      if pySpace c then splitAfterPunctAux rest current true
      else splitAfterPunctAux rest [c] false
    else
      if pySpace c && endsTerminal current then
        current :: splitAfterPunctAux rest [] true
      else
        splitAfterPunctAux rest (current ++ [c]) false

/-- The sentence split used by the fallback cascade's tier 2. -/
def splitAfterPunct (t : List Char) : List (List Char) :=
  splitAfterPunctAux t [] false

example : splitAfterPunct "Hi. There you!  Go".data =
    ["Hi.".data, "There you!".data, "Go".data] := by decide

example : splitAfterPunct "Hi. ".data = ["Hi.".data, []] := by decide

/-- Lines 354-366: sentence-by-sentence synthesis.  Blank sentences are
skipped; a sentence whose call raises contributes nothing; the segments
of the succeeding sentences are collected in order. -/
def tier2Audio (engine : Engine) (t : List Char) : List (List Sample) :=
  (splitAfterPunct t).foldl
    (fun acc s =>
      if (pyStrip s).isEmpty then acc
      else
        match engine s with
        | .ok parts => acc ++ parts
        | .error _ => acc)
    []

/-- The canned apology utterance of tier 3 (line 378). -/
def apologyText : List Char :=
  "I\x27m sorry, I couldn\x27t generate audio for this response.".data

/-- Output filename suffix written by the pipeline: `_response.wav`,
`_error_response.wav` or `_silent_response.wav` (the prefix is a fresh
UUID, abstracted away). -/
inductive FileTag
  | response
  | errorResponse
  | silentResponse
deriving DecidableEq

/-- The written audio file: filename suffix, samples, sample rate. -/
structure OutputFile where
  tag : FileTag
  audio : List Sample
  sampleRate : Nat
deriving DecidableEq

/-- Lines 392-397: one second of zero-amplitude audio at 22050 Hz under a
`_silent_response.wav` name. -/
def silentFile : OutputFile :=
  ⟨.silentResponse, List.replicate 22050 0, 22050⟩

/-- Lines 346-388, the `try` body of `_fallback_tts`, covering tiers 1-3.
On success it returns the file and the list of tiers attempted; on an
escaping exception it returns (as the error value) the tiers attempted
before the jump to the `except` handler.  Tier 3 raises when the apology
call itself raises or yields no array at all (`np.concatenate([])` raises
`ValueError`). -/
def tiers123 (engine : Engine) (t : List Char) :
    Except (List Tier) (OutputFile × List Tier) :=
  match engine t with
  | .error _ => .error [.wholeText]
  | .ok parts =>
    if parts.isEmpty then
      let chunks2 := tier2Audio engine t
      if chunks2.isEmpty then
        match engine apologyText with
        | .error _ => .error [.wholeText, .bySentence, .apology]
        | .ok errParts =>
          if errParts.isEmpty then .error [.wholeText, .bySentence, .apology]
          else .ok (⟨.errorResponse, errParts.flatten, 22050⟩,
                    [.wholeText, .bySentence, .apology])
      else .ok (⟨.response, chunks2.flatten, 22050⟩, [.wholeText, .bySentence])
    else .ok (⟨.response, parts.flatten, 22050⟩, [.wholeText])

/-- `_fallback_tts` (lines 332-397): the `try` body of tiers 1-3 with the
`except` handler that writes one second of silence.  Returns the written
file and the tiers attempted. -/
def fallbackTTS (engine : Engine) (t : List Char) : OutputFile × List Tier :=
  match tiers123 engine t with
  | .ok r => r
  | .error tiers => (silentFile, tiers ++ [.silence])

/-- Which branch of the 150-character length check ran. -/
inductive SynthPath
  | singleChunk
  | parallelChunks
deriving DecidableEq

/-- One run of the synthesis entry point: the written file plus trace
information (branch taken, whether chunk planning ran, and the fallback
tiers attempted if the fallback cascade was invoked). -/
structure TTSRun where
  output : OutputFile
  path : SynthPath
  planningInvoked : Bool
  fallbackTiers : Option (List Tier)
deriving DecidableEq

/-- A run that ended in the fallback cascade. -/
def fallbackRun (engine : Engine) (t : List Char) (p : SynthPath) (planned : Bool) :
    TTSRun :=
  let r := fallbackTTS engine t
  ⟨r.1, p, planned, some r.2⟩

/-- `text_to_speech` (lines 226-330), from the cleaned text on.  Cleaned
text shorter than 150 characters is synthesized as a single chunk, any
failure (exception or no audio) falling back to `_fallback_tts`.  Longer
text is chunk-planned; an unusable plan (line 277), an empty parallel
result, or an exception falls back likewise.  The `Except` result makes
a raised exception observable: an `.error` value would mean an exception
reached the caller. -/
def textToSpeech (engine : Engine) (cleaned : List Char) (order : List Nat) :
    Except Unit TTSRun :=
  if cleaned.length < 150 then
    match engine cleaned with
    | .error _ => .ok (fallbackRun engine cleaned .singleChunk false)
    | .ok parts =>
      if parts.isEmpty then .ok (fallbackRun engine cleaned .singleChunk false)
      else .ok ⟨⟨.response, parts.flatten, 22050⟩, .singleChunk, false, none⟩
  else
    let chunks := planChunks cleaned
    if notChunkable chunks then .ok (fallbackRun engine cleaned .parallelChunks true)
    else
      let results := collectParallel engine chunks order
      if results.isEmpty then .ok (fallbackRun engine cleaned .parallelChunks true)
      else .ok ⟨⟨.response, results.flatten, 22050⟩, .parallelChunks, true, none⟩

/-- The keys of `AVAILABLE_VOICES` in `kokoro_voices.py`, in source
order. -/
def availableVoiceIds : List String :=
  ["af_heart", "af_alloy", "af_aoede", "af_bella", "af_jessica", "af_kore",
   "af_nicole", "af_nova", "af_river", "af_sarah", "af_sky",
   "am_adam", "am_echo", "am_eric", "am_fenrir", "am_liam", "am_michael",
   "am_onyx", "am_puck", "am_santa",
   "bf_alice", "bf_emma", "bf_isabella", "bf_lily",
   "bm_daniel", "bm_fable", "bm_george", "bm_lewis",
   "jf_alpha", "jf_gongitsune", "jf_nezumi", "jf_tebukuro", "jm_kumo",
   "zf_xiaobei", "zf_xiaoni", "zf_xiaoxiao", "zf_xiaoyi",
   "zm_yunjian", "zm_yunxi", "zm_yunxia", "zm_yunyang",
   "ef_dora", "em_alex", "em_santa", "ff_siwis",
   "hf_alpha", "hf_beta", "hm_omega", "hm_psi",
   "if_sara", "im_nicola", "pf_dora", "pm_alex", "pm_santa"]

/-- The voice actually handed to the synthesis engine: either the local
`.pt` asset file of the requested voice, or a voice name. -/
inductive VoiceRef
  | localFile (voiceId : String)
  | named (voiceId : String)
deriving DecidableEq

/-- Result of voice validation: the voice used and how many warnings were
printed. -/
structure VoiceResolution where
  useVoice : VoiceRef
  warningsLogged : Nat
deriving DecidableEq

/-- Lines 212-224 of `model_manager.py`: if the local voice asset exists
(`fsHas` models `os.path.exists` on `voices/voices/<voice>.pt`) it is
used directly; otherwise a voice missing from `AVAILABLE_VOICES` falls
back to `af_heart` with one warning; otherwise the name is used as is
(an informational message, not a warning). -/
def resolveVoice (fsHas : String → Bool) (voice : String) : VoiceResolution :=
  if fsHas voice then ⟨.localFile voice, 0⟩
  else
    if !(availableVoiceIds.contains voice) then ⟨.named "af_heart", 1⟩
    else ⟨.named voice, 0⟩

/-- The voice-resolution policy as the specification words it: use the
local asset when present; otherwise validate against the known-voice
registry, falling back to the default voice when unknown, with a single
logged warning. -/
def specVoicePolicy (fsHas : String → Bool) (voice : String) : VoiceResolution :=
  if fsHas voice then ⟨.localFile voice, 0⟩
  else
    if availableVoiceIds.contains voice then ⟨.named voice, 0⟩
    else ⟨.named "af_heart", 1⟩

/-- Join chunks of sentences with single spaces, as the packing loop does
(`current_chunk += " " + sentence`). -/
def joinSpace : List (List Char) → List Char
  | [] => []
  | [s] => s
  | s :: t :: rest => s ++ ' ' :: joinSpace (t :: rest)

theorem joinSpace_ne_nil (b : List (List Char)) (hb : b ≠ [])
    (hs : ∀ s ∈ b, s ≠ []) : joinSpace b ≠ [] := by
  match b with
  | [] => exact absurd rfl hb
  | [s] => exact hs s (by simp)
  | s :: t :: rest => simp [joinSpace]

theorem joinSpace_append_single (pending : List (List Char)) (s : List Char)
    (hp : pending ≠ []) :
    joinSpace (pending ++ [s]) = joinSpace pending ++ ' ' :: s := by
  induction pending with
  | nil => exact absurd rfl hp
  | cons x rest ih =>
    cases rest with
    | nil => simp [joinSpace]
    | cons y r =>
      have h2 := ih (by simp)
      simp only [List.cons_append] at h2 ⊢
      simp only [joinSpace]
      rw [h2]
      simp [List.append_assoc]

theorem joinSpace_append (b c : List (List Char)) (hb : b ≠ []) (hc : c ≠ []) :
    joinSpace (b ++ c) = joinSpace b ++ ' ' :: joinSpace c := by
  induction b with
  | nil => exact absurd rfl hb
  | cons x rest ih =>
    cases rest with
    | nil =>
      cases c with
      | nil => exact absurd rfl hc
      | cons y r => simp [joinSpace]
    | cons y r =>
      have h2 := ih (by simp)
      simp only [List.cons_append] at h2 ⊢
      simp only [joinSpace]
      rw [h2]
      simp [List.append_assoc]

theorem flatten_ne_nil_of_head (b : List (List Char)) (rest : List (List (List Char)))
    (hb : b ≠ []) : (b :: rest).flatten ≠ [] := by
  cases b with
  | nil => exact absurd rfl hb
  | cons x r => simp

/-- Joining with spaces commutes with flattening a list of non-empty
blocks. -/
theorem joinSpace_flatten (blocks : List (List (List Char)))
    (h : ∀ b ∈ blocks, b ≠ []) :
    joinSpace (blocks.map joinSpace) = joinSpace blocks.flatten := by
  induction blocks with
  | nil => rfl
  | cons b rest ih =>
    have hb : b ≠ [] := h b (by simp)
    cases rest with
    | nil => simp [joinSpace]
    | cons b2 r2 =>
      have hrest : ∀ x ∈ b2 :: r2, x ≠ [] := fun x hx => h x (by simp [hx])
      have hflat : (b2 :: r2).flatten ≠ [] :=
        flatten_ne_nil_of_head b2 r2 (hrest b2 (by simp))
      have ihr := ih hrest
      calc joinSpace ((b :: b2 :: r2).map joinSpace)
          = joinSpace b ++ ' ' :: joinSpace ((b2 :: r2).map joinSpace) := by
            simp [joinSpace]
        _ = joinSpace b ++ ' ' :: joinSpace (b2 :: r2).flatten := by rw [ihr]
        _ = joinSpace (b ++ (b2 :: r2).flatten) := by
            rw [joinSpace_append b (b2 :: r2).flatten hb hflat]
        _ = joinSpace (b :: b2 :: r2).flatten := by simp

/-- The packing policy exactly as the specification words it: the first
sentence opens a chunk; each following sentence is appended (after a
joining space) while the chunk length plus the sentence length stays
within the 150-character bound; otherwise the chunk is closed and the
sentence starts a new chunk. -/
def specGreedyRun : List Char → List (List Char) → List (List Char)
  | chunk, [] => [chunk]
  | chunk, s :: rest =>
    if chunk.length + s.length > 150 then chunk :: specGreedyRun s rest
    else specGreedyRun (chunk ++ ' ' :: s) rest

/-- Specification-side greedy packing over a sentence list. -/
def specGreedyPack : List (List Char) → List (List Char)
  | [] => []
  | s :: rest => specGreedyRun s rest

theorem groupChunksAux_eq_specRun (rest : List (List Char)) :
    ∀ current, (∀ s ∈ rest, s ≠ []) → current ≠ [] →
      groupChunksAux rest current = specGreedyRun current rest := by
  induction rest with
  | nil => intro current _ hc; simp [groupChunksAux, specGreedyRun, hc]
  | cons s r ih =>
    intro current hr hc
    have hs : s ≠ [] := hr s (by simp)
    have hr' : ∀ x ∈ r, x ≠ [] := fun x hx => hr x (by simp [hx])
    by_cases hlen : current.length + s.length > 150
    · simp [groupChunksAux, specGreedyRun, hlen, hc, ih s hr' hs]
    · have hcs : current ++ ' ' :: s ≠ [] := by simp
      simp [groupChunksAux, specGreedyRun, hlen, hc, ih (current ++ ' ' :: s) hr' hcs]

/-- The packing loop, started on a non-empty block `pending` already
packed into the current chunk, partitions the remaining sentences into
consecutive non-empty blocks whose space-joins are exactly the produced
chunks. -/
theorem groupChunksAux_blocks (rest : List (List Char)) :
    ∀ pending : List (List Char),
      (∀ s ∈ rest, s ≠ []) → (∀ s ∈ pending, s ≠ []) → pending ≠ [] →
      ∃ blocks : List (List (List Char)),
        blocks.flatten = pending ++ rest ∧
        groupChunksAux rest (joinSpace pending) = blocks.map joinSpace ∧
        (∀ b ∈ blocks, b ≠ [] ∧ ∀ s ∈ b, s ≠ []) := by
  induction rest with
  | nil =>
    intro pending _ hps hp
    refine ⟨[pending], by simp, ?_, ?_⟩
    · have hne := joinSpace_ne_nil pending hp hps
      simp [groupChunksAux, hne]
    · intro b hb
      rw [List.mem_singleton] at hb
      subst hb
      exact ⟨hp, hps⟩
  | cons s r ih =>
    intro pending hr hps hp
    have hs : s ≠ [] := hr s (by simp)
    have hr' : ∀ x ∈ r, x ≠ [] := fun x hx => hr x (by simp [hx])
    have hne := joinSpace_ne_nil pending hp hps
    by_cases hlen : (joinSpace pending).length + s.length > 150
    · obtain ⟨blocks, hflat, heq, hblk⟩ := ih [s] hr' (by simpa using hs) (by simp)
      refine ⟨pending :: blocks, by simp [hflat], ?_, ?_⟩
      · have hred : groupChunksAux (s :: r) (joinSpace pending)
            = joinSpace pending :: groupChunksAux r s := by
          simp [groupChunksAux, hlen, hne]
        have hjs : joinSpace [s] = s := rfl
        rw [hred, List.map_cons, ← heq, hjs]
      · intro b hb
        rcases List.mem_cons.mp hb with rfl | hb
        · exact ⟨hp, hps⟩
        · exact hblk b hb
    · have key := joinSpace_append_single pending s hp
      obtain ⟨blocks, hflat, heq, hblk⟩ :=
        ih (pending ++ [s])
          hr'
          (by
            intro x hx
            rcases List.mem_append.mp hx with hx | hx
            · exact hps x hx
            · simpa using (by simpa using hx) ▸ hs)
          (by simp)
      refine ⟨blocks, by simp [hflat], ?_, hblk⟩
      have hred : groupChunksAux (s :: r) (joinSpace pending)
          = groupChunksAux r (joinSpace pending ++ ' ' :: s) := by
        simp [groupChunksAux, hlen, hne]
      rw [hred, ← key, heq]

/-- Top-level form of `groupChunksAux_blocks`: on non-empty sentences the
planner's chunks are the space-joins of a partition of the sentence list
into consecutive non-empty blocks. -/
theorem groupChunks_blocks (ss : List (List Char)) (h : ∀ s ∈ ss, s ≠ []) :
    ∃ blocks : List (List (List Char)),
      blocks.flatten = ss ∧
      groupChunks ss = blocks.map joinSpace ∧
      (∀ b ∈ blocks, b ≠ [] ∧ ∀ s ∈ b, s ≠ []) := by
  cases ss with
  | nil => exact ⟨[], rfl, rfl, by simp⟩
  | cons s r =>
    have hs : s ≠ [] := h s (by simp)
    have hr : ∀ x ∈ r, x ≠ [] := fun x hx => h x (by simp [hx])
    have h0 : groupChunks (s :: r) = groupChunksAux r (joinSpace [s]) := by
      show groupChunksAux (s :: r) [] = _
      simp [groupChunksAux, joinSpace]
    obtain ⟨blocks, hflat, heq, hblk⟩ :=
      groupChunksAux_blocks r [s] hr (by simpa using hs) (by simp)
    exact ⟨blocks, by simpa using hflat, by rw [h0, heq], hblk⟩

/-- Every chunk the packing loop emits is either within 151 characters or
is one of the sentences it was given (an unsplittable run-on
sentence). -/
theorem groupChunksAux_bound (rest : List (List Char)) :
    ∀ (current : List Char) (S : List (List Char)),
      (∀ s ∈ rest, s ∈ S) → (current.length ≤ 151 ∨ current ∈ S) →
      ∀ c ∈ groupChunksAux rest current, c.length ≤ 151 ∨ c ∈ S := by
  induction rest with
  | nil =>
    intro current S _ hc c hmem
    by_cases h : current = []
    · simp [groupChunksAux, h] at hmem
    · simp only [groupChunksAux, if_neg h, List.mem_singleton] at hmem
      subst hmem; exact hc
  | cons s r ih =>
    intro current S hr hc c hmem
    have hsS : s ∈ S := hr s (by simp)
    have hr' : ∀ x ∈ r, x ∈ S := fun x hx => hr x (by simp [hx])
    by_cases hlen : current.length + s.length > 150
    · by_cases hcur : current = []
      · simp only [groupChunksAux, if_pos hlen, if_pos hcur] at hmem
        exact ih s S hr' (Or.inr hsS) c hmem
      · simp only [groupChunksAux, if_pos hlen, if_neg hcur, List.mem_cons] at hmem
        rcases hmem with rfl | hmem
        · exact hc
        · exact ih s S hr' (Or.inr hsS) c hmem
    · by_cases hcur : current = []
      · simp only [groupChunksAux, if_neg hlen, if_pos hcur] at hmem
        exact ih s S hr' (Or.inr hsS) c hmem
      · simp only [groupChunksAux, if_neg hlen, if_neg hcur] at hmem
        refine ih (current ++ ' ' :: s) S hr' (Or.inl ?_) c hmem
        have hle : current.length + s.length ≤ 150 := by omega
        simp only [List.length_append, List.length_cons]
        omega

/-- With an engine whose every call raises, the parallel executor
collects nothing. -/
theorem collectParallel_fail (chunks : List (List Char)) (order : List Nat) :
    collectParallel (fun _ => Except.error ()) chunks order = [] := by
  simp only [collectParallel]
  rw [List.filter_eq_nil_iff]
  intro a ha
  rw [List.mem_map] at ha
  obtain ⟨x, _, rfl⟩ := ha
  simp [processChunk]

theorem tiers123_ok_rate (engine : Engine) (t : List Char)
    (r : OutputFile × List Tier) (h : tiers123 engine t = .ok r) :
    r.1.sampleRate = 22050 := by
  rcases he : engine t with e | parts
  · simp only [tiers123, he] at h
    exact Except.noConfusion h
  · simp only [tiers123, he] at h
    by_cases hp : parts.isEmpty
    · simp only [hp, if_true] at h
      by_cases h2 : (tier2Audio engine t).isEmpty
      · simp only [h2, if_true] at h
        rcases ha : engine apologyText with e2 | errParts
        · simp only [ha] at h
          exact Except.noConfusion h
        · simp only [ha] at h
          by_cases he2 : errParts.isEmpty
          · simp only [he2, if_true] at h
            exact Except.noConfusion h
          · simp only [he2, if_false] at h
            injection h with h3
            subst h3
            rfl
      · simp only [h2, if_false] at h
        injection h with h3
        subst h3
        rfl
    · simp only [hp, if_false] at h
      injection h with h3
      subst h3
      rfl

theorem fallbackTTS_rate (engine : Engine) (t : List Char) :
    (fallbackTTS engine t).1.sampleRate = 22050 := by
  unfold fallbackTTS
  rcases ht : tiers123 engine t with tiers | r
  · rfl
  · exact tiers123_ok_rate engine t r ht

/-- The fallback cascade's tier schedule, as amended: tier 1 always runs;
tier 2 runs exactly when tier 1 raises no exception but yields no audio;
tier 3 exactly when tiers 1 and 2 both yield no audio without an
exception; tier 4 (silence) exactly when an exception escapes one of
tiers 1-3 — in particular a tier-1 exception jumps straight to silence,
skipping tiers 2 and 3. -/
def cascadeTiers (engine : Engine) (t : List Char) : List Tier :=
  match engine t with
  | .error _ => [.wholeText, .silence]
  | .ok parts =>
    if parts.isEmpty then
      if (tier2Audio engine t).isEmpty then
        match engine apologyText with
        | .error _ => [.wholeText, .bySentence, .apology, .silence]
        | .ok errParts =>
          if errParts.isEmpty then [.wholeText, .bySentence, .apology, .silence]
          else [.wholeText, .bySentence, .apology]
      else [.wholeText, .bySentence]
    else [.wholeText]

/-- The conditions under which `text_to_speech` hands over to
`_fallback_tts`, as the specification describes the branching: below the
threshold, any single-chunk failure (exception or no audio); at or above
it, an unusable chunk plan or an empty parallel result. -/
def fallbackTriggered (engine : Engine) (cleaned : List Char) (order : List Nat) :
    Bool :=
  if cleaned.length < 150 then
    match engine cleaned with
    | .error _ => true
    | .ok parts => parts.isEmpty
  else
    notChunkable (planChunks cleaned) ||
      (collectParallel engine (planChunks cleaned) order).isEmpty

/-- Scanning a block of non-terminal characters only accumulates them
onto the current sentence. -/
theorem splitSentencesAux_nonterm (body : List Char) :
    ∀ (rest current : List Char), (∀ c ∈ body, terminalPunct c = false) →
      splitSentencesAux (body ++ rest) current =
        splitSentencesAux rest (current ++ body) := by
  induction body with
  | nil => intro rest current _; simp
  | cons c bs ih =>
    intro rest current hb
    have hc : terminalPunct c = false := hb c (by simp)
    have hbs : ∀ x ∈ bs, terminalPunct x = false := fun x hx => hb x (by simp [hx])
    have hstep : splitSentencesAux ((c :: bs) ++ rest) current
        = splitSentencesAux (bs ++ rest) (current ++ [c]) := by
      simp [splitSentencesAux, hc]
    rw [hstep, ih rest (current ++ [c]) hbs]
    simp [List.append_assoc]

/-- Scanning a trailing run of terminal punctuation closes exactly one
sentence: the stripped accumulation. -/
theorem splitSentencesAux_punctrun (run : List Char) :
    ∀ current, run ≠ [] → (∀ c ∈ run, terminalPunct c = true) →
      splitSentencesAux run current = [pyStrip (current ++ run)] := by
  induction run with
  | nil => intro current h _; exact absurd rfl h
  | cons c cs ih =>
    intro current _ hr
    have hc : terminalPunct c = true := hr c (by simp)
    cases cs with
    | nil =>
      simp [splitSentencesAux, headTerminal, hc]
    | cons d ds =>
      have hd : terminalPunct d = true := hr d (by simp)
      have hcs : ∀ x ∈ d :: ds, terminalPunct x = true := fun x hx => hr x (by simp [hx])
      have hstep : splitSentencesAux (c :: d :: ds) current
          = splitSentencesAux (d :: ds) (current ++ [c]) := by
        simp [splitSentencesAux, headTerminal, hc, hd]
      rw [hstep, ih (current ++ [c]) (by simp) hcs]
      simp [List.append_assoc]

/-- C2: for every input text and every behaviour of the synthesis engine
(every voice and speed being absorbed into the engine value, including an
engine raising on every call), the synthesis entry point returns `.ok`
with a written file — it never lets an exception escape and never returns
an empty or absent result — and the file always carries the fixed
22050 Hz rate. -/
theorem tts_never_raises (engine : Engine) (cleaned : List Char) (order : List Nat) :
    ∃ run : TTSRun, textToSpeech engine cleaned order = Except.ok run ∧
      run.output.sampleRate = 22050 := by
  by_cases hlen : cleaned.length < 150
  · rcases he : engine cleaned with e | parts
    · refine ⟨fallbackRun engine cleaned .singleChunk false, ?_, ?_⟩
      · simp only [textToSpeech, if_pos hlen, he]
      · simpa [fallbackRun] using fallbackTTS_rate engine cleaned
    · by_cases hp : parts.isEmpty
      · refine ⟨fallbackRun engine cleaned .singleChunk false, ?_, ?_⟩
        · simp only [textToSpeech, if_pos hlen, he, hp, if_true]
        · simpa [fallbackRun] using fallbackTTS_rate engine cleaned
      · refine ⟨⟨⟨.response, parts.flatten, 22050⟩, .singleChunk, false, none⟩, ?_, rfl⟩
        simp [textToSpeech, hlen, he, hp]
  · by_cases hch : notChunkable (planChunks cleaned)
    · refine ⟨fallbackRun engine cleaned .parallelChunks true, ?_, ?_⟩
      · simp [textToSpeech, hlen, hch]
      · simpa [fallbackRun] using fallbackTTS_rate engine cleaned
    · by_cases hres : (collectParallel engine (planChunks cleaned) order).isEmpty
      · refine ⟨fallbackRun engine cleaned .parallelChunks true, ?_, ?_⟩
        · simp [textToSpeech, hlen, hch, hres]
        · simpa [fallbackRun] using fallbackTTS_rate engine cleaned
      · refine ⟨⟨⟨.response, (collectParallel engine (planChunks cleaned) order).flatten,
            22050⟩, .parallelChunks, true, none⟩, ?_, rfl⟩
        simp [textToSpeech, hlen, hch, hres]

/-- C3 (amended): the cascade attempts the four tiers in the fixed order
whole text, sentence-by-sentence, apology, silence, but silence is
emitted whenever an exception escapes tiers 1-3; in particular a tier-1
exception skips tiers 2 and 3 entirely.  Tier 2 runs exactly when tier 1
raises no exception but yields no audio; tier 3 exactly when tiers 1 and
2 yield no audio without an exception.  The attempted-tier trace of
`_fallback_tts` equals this schedule. -/
theorem fallback_tier_schedule (engine : Engine) (t : List Char) :
    (fallbackTTS engine t).2 = cascadeTiers engine t := by
  rcases he : engine t with e | parts
  · have ht : tiers123 engine t = .error [.wholeText] := by
      simp only [tiers123, he]
    simp [fallbackTTS, ht, cascadeTiers, he]
  · by_cases hp : parts.isEmpty
    · by_cases h2 : (tier2Audio engine t).isEmpty
      · rcases ha : engine apologyText with e2 | errParts
        · have ht : tiers123 engine t = .error [.wholeText, .bySentence, .apology] := by
            simp [tiers123, he, hp, h2, ha]
          simp [fallbackTTS, ht, cascadeTiers, he, hp, h2, ha]
        · by_cases he2 : errParts.isEmpty
          · have ht : tiers123 engine t = .error [.wholeText, .bySentence, .apology] := by
              simp [tiers123, he, hp, h2, ha, he2]
            simp [fallbackTTS, ht, cascadeTiers, he, hp, h2, ha, he2]
          · have ht : tiers123 engine t =
                .ok (⟨.errorResponse, errParts.flatten, 22050⟩,
                     [.wholeText, .bySentence, .apology]) := by
              simp [tiers123, he, hp, h2, ha, he2]
            simp [fallbackTTS, ht, cascadeTiers, he, hp, h2, ha, he2]
      · have ht : tiers123 engine t =
            .ok (⟨.response, (tier2Audio engine t).flatten, 22050⟩,
                 [.wholeText, .bySentence]) := by
          simp [tiers123, he, hp, h2]
        simp [fallbackTTS, ht, cascadeTiers, he, hp, h2]
    · have ht : tiers123 engine t =
          .ok (⟨.response, parts.flatten, 22050⟩, [.wholeText]) := by
        simp [tiers123, he, hp]
      simp [fallbackTTS, ht, cascadeTiers, he, hp]

/-- C3 counterexample: with an engine that raises on every call, the
cascade's trace is whole-text directly followed by silence — silence is
reached although the sentence-by-sentence and apology tiers were never
attempted, refuting "each tier only after the previous one fails or
produces no audio". -/
theorem cascade_skips_to_silence_cx :
    (fallbackTTS (fun _ => Except.error ()) "Hi there.".data).2 =
      [Tier.wholeText, Tier.silence] ∧
    Tier.silence ∈ (fallbackTTS (fun _ => Except.error ()) "Hi there.".data).2 ∧
    Tier.apology ∉ (fallbackTTS (fun _ => Except.error ()) "Hi there.".data).2 ∧
    Tier.bySentence ∉ (fallbackTTS (fun _ => Except.error ()) "Hi there.".data).2 := by
  refine ⟨rfl, by decide, by decide, by decide⟩

/-- C4: if every synthesis-engine call raises — the apology utterance
included — the entry point deterministically writes exactly one second of
zero-amplitude audio (22050 zero samples) at the fixed 22050 Hz rate
under a `_silent_response.wav` name, whatever the text and completion
order. -/
theorem silent_on_total_failure (cleaned : List Char) (order : List Nat) :
    textToSpeech (fun _ => Except.error ()) cleaned order =
      Except.ok ⟨⟨.silentResponse, List.replicate 22050 0, 22050⟩,
        if cleaned.length < 150 then .singleChunk else .parallelChunks,
        if cleaned.length < 150 then false else true,
        some [.wholeText, .silence]⟩ := by
  by_cases hlen : cleaned.length < 150
  · simp only [textToSpeech, if_pos hlen]
    rfl
  · simp only [textToSpeech, if_neg hlen]
    by_cases hch : notChunkable (planChunks cleaned)
    · simp only [hch, if_true, if_neg hlen]
      rfl
    · simp only [hch, if_false, collectParallel_fail, List.isEmpty_nil, if_true,
        if_neg hlen]
      rfl

/-- An engine whose audio for a text is the code of the text's first
character, used to tell the two chunks' audio apart. -/
def orderCxEngine : Engine :=
  fun t => Except.ok [[((t.headD ' ').toNat : Int)]]

/-- First sentence of the completion-order counterexample text: 99 `a`
characters and a period (100 characters). -/
def orderCxChunkA : List Char := List.replicate 99 'a' ++ ['.']

/-- Second sentence: 99 `b` characters and a period (100 characters). -/
def orderCxChunkB : List Char := List.replicate 99 'b' ++ ['.']

/-- A 201-character text that the planner splits into exactly the two
chunks `orderCxChunkA` and `orderCxChunkB`. -/
def orderCxText : List Char := orderCxChunkA ++ ' ' :: orderCxChunkB

set_option maxRecDepth 8000 in
/-- C1: the claim fails on the code.  The executor appends chunk results
in completion order (`as_completed`), not original chunk order: on the
two-chunk text, completion order second-then-first yields the audio of
chunk 2 followed by chunk 1 (`[98, 97]`), while first-then-second yields
`[97, 98]` — the final waveform depends on which worker finishes first
and is not the in-order concatenation. -/
theorem parallel_completion_order_divergence :
    textToSpeech orderCxEngine orderCxText [1, 0] =
      Except.ok ⟨⟨.response, [98, 97], 22050⟩, .parallelChunks, true, none⟩ ∧
    textToSpeech orderCxEngine orderCxText [0, 1] =
      Except.ok ⟨⟨.response, [97, 98], 22050⟩, .parallelChunks, true, none⟩ ∧
    [1, 0].Perm (List.range 2) ∧
    ([98, 97] : List Sample) ≠ [97, 98] :=
  ⟨rfl, rfl, by decide, by decide⟩

/-- C5 (amended): every chunk the planner produces is at most 151
characters long — the packing test `len(chunk) + len(sentence) > 150`
ignores the joining space, so a packed chunk can exceed the 150-character
maximum by exactly one — except when the chunk is a single run-on
sentence of the split, which can be arbitrarily long. -/
theorem chunk_length_bound (t : List Char) :
    ∀ c ∈ planChunks t, c.length ≤ 151 ∨ c ∈ splitSentences t := by
  intro c hc
  exact groupChunksAux_bound (splitSentences t) [] (splitSentences t)
    (fun s hs => hs) (Or.inl (by simp)) c hc

/-- Witness for `chunk_length_bound` at a concrete text and chunk. -/
theorem chunk_length_bound_witness :
    "Hello. World.".data ∈ planChunks "Hello. World.".data ∧
    (("Hello. World.".data).length ≤ 151 ∨
      "Hello. World.".data ∈ splitSentences "Hello. World.".data) :=
  ⟨by decide, chunk_length_bound "Hello. World.".data "Hello. World.".data (by decide)⟩

/-- The run-on counterexample text for C5: a 100-character sentence, a
space and a 50-character sentence; the packing test `100 + 50 > 150`
fails, so both sentences are packed into one 151-character chunk. -/
def runOnCxText : List Char :=
  List.replicate 99 'a' ++ '.' :: ' ' :: (List.replicate 49 'b' ++ ['.'])

set_option maxRecDepth 4000 in
/-- C5 counterexample: the planner emits a 151-character chunk that is
made of two sentences, so it is longer than the configured maximum and is
not a single run-on sentence. -/
theorem chunk_over_bound_cx :
    planChunks runOnCxText = [runOnCxText] ∧
    runOnCxText.length = 151 ∧
    runOnCxText ∉ splitSentences runOnCxText := by
  refine ⟨rfl, rfl, by decide⟩

/-- C6: on non-empty sentences, the source's packing loop implements
exactly the greedy policy the specification describes (`specGreedyPack`);
the "not chunkable" signal is raised exactly when some chunk is shorter
than the 5-character minimum or there is exactly one chunk; and whenever
the signal is raised on long-enough text, the entry point uses the
non-parallel fallback path instead. -/
theorem greedy_pack_and_notchunkable_signal :
    (∀ ss : List (List Char), (∀ s ∈ ss, s ≠ []) →
        groupChunks ss = specGreedyPack ss) ∧
    (∀ chunks : List (List Char),
        notChunkable chunks = true ↔
          (∃ c ∈ chunks, c.length < 5) ∨ chunks.length = 1) ∧
    (∀ (engine : Engine) (cleaned : List Char) (order : List Nat),
        150 ≤ cleaned.length → notChunkable (planChunks cleaned) = true →
        textToSpeech engine cleaned order =
          Except.ok (fallbackRun engine cleaned .parallelChunks true)) := by
  refine ⟨?_, ?_, ?_⟩
  · intro ss h
    cases ss with
    | nil => rfl
    | cons s r =>
      have h0 : groupChunks (s :: r) = groupChunksAux r s := by
        simp [groupChunks, groupChunksAux]
      rw [h0]
      exact groupChunksAux_eq_specRun r s (fun x hx => h x (by simp [hx]))
        (h s (by simp))
  · intro chunks
    simp [notChunkable, List.any_eq_true]
  · intro engine cleaned order hlen hch
    have hlt : ¬ cleaned.length < 150 := by omega
    simp [textToSpeech, hlt, hch]

/-- Witness sentences for C6: two short sentences. -/
def packWitnessSentences : List (List Char) := ["Hello.".data, "World.".data]

/-- Witness long text for C6: 151 characters forming one sentence, whose
one-chunk plan triggers the "not chunkable" signal. -/
def packWitnessLongText : List Char := List.replicate 150 'a' ++ ['.']

set_option maxRecDepth 4000 in
/-- Witness for `greedy_pack_and_notchunkable_signal` at concrete
inputs. -/
theorem greedy_pack_and_notchunkable_signal_witness :
    groupChunks packWitnessSentences = specGreedyPack packWitnessSentences ∧
    (150 ≤ packWitnessLongText.length ∧
      notChunkable (planChunks packWitnessLongText) = true) ∧
    textToSpeech (fun _ => Except.ok [[0]]) packWitnessLongText [] =
      Except.ok (fallbackRun (fun _ => Except.ok [[0]]) packWitnessLongText
        .parallelChunks true) :=
  ⟨greedy_pack_and_notchunkable_signal.1 packWitnessSentences (by decide),
   ⟨by decide, by decide⟩,
   greedy_pack_and_notchunkable_signal.2.2 (fun _ => Except.ok [[0]])
     packWitnessLongText [] (by decide) (by decide)⟩

/-- C7: the entry point branches on the cleaned text's length: below 150
characters the single-chunk path runs and chunk planning is never
invoked; at or above 150 the plan-plus-parallel path runs with planning
invoked, and the fallback cascade is entered exactly under
`fallbackTriggered` (single-chunk failure below the threshold; unusable
plan or empty parallel result at or above it). -/
theorem threshold_branching (engine : Engine) (cleaned : List Char) (order : List Nat) :
    ∃ run : TTSRun,
      textToSpeech engine cleaned order = Except.ok run ∧
      run.path = (if cleaned.length < 150 then SynthPath.singleChunk
                  else SynthPath.parallelChunks) ∧
      run.planningInvoked = (if cleaned.length < 150 then false else true) ∧
      run.fallbackTiers.isSome = fallbackTriggered engine cleaned order := by
  by_cases hlen : cleaned.length < 150
  · rcases he : engine cleaned with e | parts
    · refine ⟨fallbackRun engine cleaned .singleChunk false, ?_, ?_, ?_, ?_⟩
      · simp [textToSpeech, hlen, he]
      · simp [fallbackRun, hlen]
      · simp [fallbackRun, hlen]
      · simp [fallbackRun, fallbackTriggered, hlen, he]
    · by_cases hp : parts.isEmpty
      · refine ⟨fallbackRun engine cleaned .singleChunk false, ?_, ?_, ?_, ?_⟩
        · simp [textToSpeech, hlen, he, hp]
        · simp [fallbackRun, hlen]
        · simp [fallbackRun, hlen]
        · simp [fallbackRun, fallbackTriggered, hlen, he, hp]
      · refine ⟨⟨⟨.response, parts.flatten, 22050⟩, .singleChunk, false, none⟩,
          ?_, ?_, ?_, ?_⟩
        · simp [textToSpeech, hlen, he, hp]
        · simp [hlen]
        · simp [hlen]
        · simp [fallbackTriggered, hlen, he, hp]
  · by_cases hch : notChunkable (planChunks cleaned)
    · refine ⟨fallbackRun engine cleaned .parallelChunks true, ?_, ?_, ?_, ?_⟩
      · simp [textToSpeech, hlen, hch]
      · simp [fallbackRun, hlen]
      · simp [fallbackRun, hlen]
      · simp [fallbackRun, fallbackTriggered, hlen, hch]
    · by_cases hres : (collectParallel engine (planChunks cleaned) order).isEmpty
      · refine ⟨fallbackRun engine cleaned .parallelChunks true, ?_, ?_, ?_, ?_⟩
        · simp [textToSpeech, hlen, hch, hres]
        · simp [fallbackRun, hlen]
        · simp [fallbackRun, hlen]
        · simp [fallbackRun, fallbackTriggered, hlen, hch, hres]
      · refine ⟨⟨⟨.response,
            (collectParallel engine (planChunks cleaned) order).flatten, 22050⟩,
            .parallelChunks, true, none⟩, ?_, ?_, ?_, ?_⟩
        · simp [textToSpeech, hlen, hch, hres]
        · simp [hlen]
        · simp [hlen]
        · simp [fallbackTriggered, hlen, hch, hres]

/-- C8 (amended): for every non-empty text that equals its own
whitespace-strip and whose terminal punctuation, if any, forms a single
run at the very end (at most one sentence boundary, at the end), the
planner returns exactly one chunk equal to the input text, terminal
punctuation preserved.  The claim as stated fails for texts with leading
or trailing whitespace, which the split strips away (see
`planner_roundtrip_cx`). -/
theorem planner_roundtrip (t : List Char) (h1 : t ≠ []) (h2 : pyStrip t = t)
    (h3 : (t.dropWhile (fun c => !terminalPunct c)).all terminalPunct = true) :
    planChunks t = [t] := by
  have hbody : ∀ c ∈ t.takeWhile (fun c => !terminalPunct c), terminalPunct c = false := by
    intro c hc
    have := List.mem_takeWhile_imp hc
    simpa using this
  have hdecomp : t.takeWhile (fun c => !terminalPunct c)
      ++ t.dropWhile (fun c => !terminalPunct c) = t :=
    List.takeWhile_append_dropWhile (fun c => !terminalPunct c) t
  have hsplit : splitSentences t = [t] := by
    rcases hrun : t.dropWhile (fun c => !terminalPunct c) with hnil | ⟨d, ds⟩
    · have hbodyt : t.takeWhile (fun c => !terminalPunct c) = t := by
        rw [hrun] at hdecomp
        simpa using hdecomp
      have := splitSentencesAux_nonterm (t.takeWhile (fun c => !terminalPunct c))
        [] [] hbody
      rw [hbodyt] at this
      unfold splitSentences
      rw [show t ++ ([] : List Char) = t by simp] at this
      rw [this]
      simp [splitSentencesAux, h1, h2]
    · have hterm : ∀ c ∈ d :: ds, terminalPunct c = true := by
        intro c hc
        have h3' := List.all_eq_true.mp h3
        rw [hrun] at h3'
        exact h3' c hc
      have hstep := splitSentencesAux_nonterm (t.takeWhile (fun c => !terminalPunct c))
        (d :: ds) [] hbody
      have hclose := splitSentencesAux_punctrun (d :: ds)
        (t.takeWhile (fun c => !terminalPunct c)) (by simp) hterm
      have hX : t.takeWhile (fun c => !terminalPunct c) ++ d :: ds = t := by
        rw [← hrun]; exact hdecomp
      unfold splitSentences
      simp only [List.nil_append] at hstep
      rw [← hX, hstep, hclose, hX, h2]
  unfold planChunks
  rw [hsplit]
  simp [groupChunks, groupChunksAux, h1]

/-- Witness for `planner_roundtrip` at a concrete one-sentence text. -/
theorem planner_roundtrip_witness :
    ("Hello.".data ≠ [] ∧ pyStrip "Hello.".data = "Hello.".data ∧
      (("Hello.".data).dropWhile (fun c => !terminalPunct c)).all terminalPunct
        = true) ∧
    planChunks "Hello.".data = ["Hello.".data] :=
  ⟨⟨by decide, by decide, by decide⟩,
   planner_roundtrip "Hello.".data (by decide) (by decide) (by decide)⟩

/-- C8 counterexample: on the text consisting of a leading space followed
by a single sentence — a text with only one sentence boundary — the
planner returns one chunk that differs from the input: the split strips
the whitespace. -/
theorem planner_roundtrip_cx :
    planChunks (' ' :: "Hello.".data) = ["Hello.".data] ∧
    planChunks (' ' :: "Hello.".data) ≠ [' ' :: "Hello.".data] :=
  ⟨by decide, by decide⟩

/-- C9: voice resolution follows the specified policy — an existing local
voice asset is used directly; otherwise an identifier missing from the
known-voice registry falls back to the default voice `af_heart` with
exactly one logged warning; at most one warning is ever logged; and the
unknown identifier `xx_unknown` resolves to `af_heart` with one warning
rather than an error. -/
theorem voice_resolution_policy :
    (∀ (fsHas : String → Bool) (voice : String),
        resolveVoice fsHas voice = specVoicePolicy fsHas voice ∧
        (resolveVoice fsHas voice).warningsLogged ≤ 1) ∧
    resolveVoice (fun _ => false) "xx_unknown" = ⟨.named "af_heart", 1⟩ := by
  refine ⟨fun fsHas voice => ⟨?_, ?_⟩, ?_⟩
  · unfold resolveVoice specVoicePolicy
    by_cases h1 : fsHas voice <;> by_cases h2 : voice ∈ availableVoiceIds <;>
      simp [h1, h2]
  · unfold resolveVoice
    by_cases h1 : fsHas voice <;> by_cases h2 : voice ∈ availableVoiceIds <;>
      simp [h1, h2]
  · decide

/-- C10 (amended): restricted to sentence lists whose entries are all
non-empty (the split only ever emits an empty sentence as a trailing
remainder of a text ending in whitespace), the planner loses, duplicates
and reorders nothing: the chunks are the space-joins of a partition of
the sentence list into consecutive non-empty blocks, every chunk is
non-empty, and joining the chunks with single spaces equals joining the
sentences with single spaces. -/
theorem planner_partition (ss : List (List Char)) (h : ∀ s ∈ ss, s ≠ []) :
    (∃ blocks : List (List (List Char)),
        blocks.flatten = ss ∧
        groupChunks ss = blocks.map joinSpace ∧
        ∀ b ∈ blocks, b ≠ []) ∧
    joinSpace (groupChunks ss) = joinSpace ss ∧
    ∀ c ∈ groupChunks ss, c ≠ [] := by
  obtain ⟨blocks, hflat, heq, hblk⟩ := groupChunks_blocks ss h
  refine ⟨⟨blocks, hflat, heq, fun b hb => (hblk b hb).1⟩, ?_, ?_⟩
  · rw [heq, joinSpace_flatten blocks (fun b hb => (hblk b hb).1), hflat]
  · intro c hc
    rw [heq, List.mem_map] at hc
    obtain ⟨b, hb, rfl⟩ := hc
    exact joinSpace_ne_nil b (hblk b hb).1 (hblk b hb).2

/-- Witness for `planner_partition` at a concrete sentence list. -/
theorem planner_partition_witness :
    (∀ s ∈ (["Hi now.".data, "Yo t    here.".data] : List (List Char)), s ≠ []) ∧
    joinSpace (groupChunks ["Hi now.".data, "Yo t    here.".data]) =
      joinSpace ["Hi now.".data, "Yo t    here.".data] :=
  ⟨by decide,
   (planner_partition ["Hi now.".data, "Yo t    here.".data] (by decide)).2.1⟩

/-- The C10 counterexample text: a 151-character run-on sentence followed
by a trailing space, so the split emits a trailing empty sentence and the
packing loop drops it (the run-on chunk is already over the bound). -/
def emptySentenceCxText : List Char := List.replicate 150 'a' ++ ['.', ' ']

set_option maxRecDepth 4000 in
/-- C10 counterexample: the split produces a trailing empty sentence; the
planner drops it, so the space-join of the chunks misses the trailing
space of the space-join of the sentences. -/
theorem planner_join_cx :
    splitSentences emptySentenceCxText = [List.replicate 150 'a' ++ ['.'], []] ∧
    planChunks emptySentenceCxText = [List.replicate 150 'a' ++ ['.']] ∧
    joinSpace (planChunks emptySentenceCxText) ≠
      joinSpace (splitSentences emptySentenceCxText) :=
  ⟨by decide, by decide, by decide⟩

end VisionVoice
